import Mathlib

/-!
Verification development for a dictionary-lookup CLI.

The program queries one of two upstream dictionary services ("bing" and
"youdao"), parses the HTML response into a tree, classifies the page shape
and extracts a structured record.  This file gives a shallow embedding of
the classification and extraction engine:

* `Node`/`NodeList` model the parsed markup tree (the tree query adapter);
* `queryDoc`/`findEl` model class/id/tag selector chains;
* `normalizeStr` models `.replace(/\s+/g, ' ').trim()`;
* `client_def_hd_hd`, `client_trans_head`, `client_do_you_mean_title_bar`,
  `handle_youdao`, `bingExtract`, `youdaoExtract` model the extractors and
  the classifier dispatch in `cli.js`;
* `describeError` models the error branch of the `text` helper.

Modelling notes: selections are plain lists of matched nodes in document
order (duplicate suppression for overlapping descendant matches is not
modelled; no claim depends on it).  In-place `replaceWith` mutation is
modelled as a pure transform of the per-run tree; each run of the pipeline
re-parses the document text, as the code does with `cheerio.load`.
The JS value stored in `stars` is the matched digit string (or the number
0); it is embedded by its numeric denotation, which is how every use site
consumes it.
-/

/-- Characters matched by the JavaScript regular-expression class `\s`
(whitespace and line terminators), used by `replace(/\s+/g, ' ')`,
`trim()` and class-attribute tokenization. -/
def isWs (c : Char) : Bool :=
  c == ' ' || c == '\t' || c == '\n' || c == '\r' || c == '\x0b' || c == '\x0c' ||
  c.toNat == 0xa0 || c.toNat == 0x1680 || (0x2000 ≤ c.toNat && c.toNat ≤ 0x200a) ||
  c.toNat == 0x2028 || c.toNat == 0x2029 || c.toNat == 0x202f || c.toNat == 0x205f ||
  c.toNat == 0x3000 || c.toNat == 0xfeff

/-- Replace every maximal run of whitespace by a single space, as
`replace(/\s+/g, ' ')` does.  The boolean argument records whether the
previously emitted character came from a whitespace run. -/
def collapseWs : Bool → List Char → List Char
  | _, [] => []
  | prev, c :: cs =>
    if isWs c then
      if prev then collapseWs true cs else ' ' :: collapseWs true cs
    else c :: collapseWs false cs

/-- Drop trailing whitespace characters. -/
def trimRight : List Char → List Char
  | [] => []
  | c :: cs =>
    let r := trimRight cs
    if r.isEmpty && isWs c then [] else c :: r

/-- Drop leading and trailing whitespace, as the JS `trim()` does. -/
def trimChars (l : List Char) : List Char :=
  trimRight (l.dropWhile isWs)

/-- Model of the JS `s.trim()`. -/
def trimStr (s : String) : String :=
  String.mk (trimChars s.data)

/-- The text normalizer: `s.replace(/\s+/g, ' ').trim()`. -/
def normalizeStr (s : String) : String :=
  String.mk (trimChars (collapseWs false s.data))

/-- Split a list of characters on whitespace runs into non-empty words
(accumulator holds the current word reversed). -/
def splitWsAux : List Char → List Char → List String
  | [], acc => if acc.isEmpty then [] else [String.mk acc.reverse]
  | c :: cs, acc =>
    if isWs c then
      if acc.isEmpty then splitWsAux cs [] else String.mk acc.reverse :: splitWsAux cs []
    else splitWsAux cs (c :: acc)

/-- Whitespace-separated tokens of a string (used for class attributes). -/
def splitWsStr (s : String) : List String :=
  splitWsAux s.data []

/-- Join a list of strings with a separator, as the JS `Array.join`. -/
def joinSep (sep : String) : List String → String
  | [] => ""
  | [x] => x
  | x :: y :: xs => x ++ sep ++ joinSep sep (y :: xs)

/-- Model of `s.startsWith(p)`. -/
def strStartsWith (s p : String) : Bool :=
  p.data.isPrefixOf s.data

/-- The first maximal run of decimal digits in a character list, as the JS
`s.match(/\d+/)` finds it (`\d` is ASCII `0`–`9`). -/
def firstDigitRun : List Char → Option (List Char)
  | [] => none
  | c :: cs => if c.isDigit then some (c :: cs.takeWhile Char.isDigit) else firstDigitRun cs

/-- Decimal value of a digit string, the number JS coerces it to. -/
def digitsVal (ds : List Char) : Nat :=
  ds.foldl (fun a c => 10 * a + (c.toNat - 48)) 0

/-- Numeric denotation of `(attr?.match(/\d+/) || [0])[0]`: the first digit
run of the class attribute, or 0 when the attribute is absent or has no
digits. -/
def starsOfAttr : Option String → Nat
  | none => 0
  | some s =>
    match firstDigitRun s.data with
    | none => 0
    | some ds => digitsVal ds

/-- Model of `chalk.cyan`: wrap in the ANSI color 36 escape pair. -/
def chalkCyan (s : String) : String :=
  "\x1b[36m" ++ s ++ "\x1b[39m"

/-- Model of `chalk.dim`: wrap in the ANSI modifier 2 escape pair. -/
def chalkDim (s : String) : String :=
  "\x1b[2m" ++ s ++ "\x1b[22m"

mutual

/-- A node of the parsed markup tree: a text leaf or an element with a tag
name, an attribute list and children. -/
inductive Node where
  | text (s : String)
  | elem (tag : String) (attrs : List (String × String)) (children : NodeList)

/-- A sequence of sibling nodes. -/
inductive NodeList where
  | nil
  | cons (n : Node) (ns : NodeList)

end

/-- Build a `NodeList` from a plain list. -/
def nl : List Node → NodeList
  | [] => .nil
  | n :: ns => .cons n (nl ns)

/-- Convenience constructor for an element node. -/
def el (tag : String) (attrs : List (String × String)) (cs : List Node) : Node :=
  Node.elem tag attrs (nl cs)

/-- The empty document. -/
def emptyDoc : NodeList := NodeList.nil

/-- Attribute list of a node (text leaves have none). -/
def attrsOf : Node → List (String × String)
  | .text _ => []
  | .elem _ a _ => a

/-- Read an attribute by name, as the adapter's `attr(name)`. -/
def getAttr (name : String) (n : Node) : Option String :=
  (attrsOf n).lookup name

/-- Tag name of a node, `none` for text leaves. -/
def tagOf : Node → Option String
  | .text _ => none
  | .elem t _ _ => some t

/-- Children of a node. -/
def childrenNL : Node → NodeList
  | .text _ => .nil
  | .elem _ _ cs => cs

/-- Class tokens of a node: the whitespace-separated words of its `class`
attribute. -/
def classTokens (n : Node) : List String :=
  splitWsStr ((getAttr "class" n).getD "")

/-- Does the node carry the given class token? -/
def hasClass (c : String) (n : Node) : Bool :=
  (classTokens n).contains c

mutual

/-- Concatenated descendant text of a node, the adapter's `text()`. -/
def nodeText : Node → String
  | .text s => s
  | .elem _ _ cs => nlText cs

/-- Concatenated text of a node sequence. -/
def nlText : NodeList → String
  | .nil => ""
  | .cons n ns => nodeText n ++ nlText ns

end

mutual

/-- All nodes of the subtree rooted at a node (itself included) that
satisfy the predicate, in document order. -/
def selNode (p : Node → Bool) : Node → List Node
  | .text s => if p (.text s) then [.text s] else []
  | .elem t a cs => (if p (.elem t a cs) then [Node.elem t a cs] else []) ++ selNL p cs

/-- All matching nodes of the subtrees of a node sequence, in document
order. -/
def selNL (p : Node → Bool) : NodeList → List Node
  | .nil => []
  | .cons n ns => selNode p n ++ selNL p ns

end

/-- A single simple selector: by class token, by id attribute or by tag
name. -/
inductive Sel where
  | cls (c : String)
  | id (i : String)
  | tag (t : String)

/-- Does a node match a simple selector? -/
def matchesSel : Sel → Node → Bool
  | .cls c, n => hasClass c n
  | .id i, n => getAttr "id" n == some i
  | .tag t, n => tagOf n == some t

/-- All strict descendants of the given nodes that match the predicate,
in document order: the adapter's `find` applied to a selection. -/
def findIn (p : Node → Bool) : List Node → List Node
  | [] => []
  | n :: rest => selNL p (childrenNL n) ++ findIn p rest

/-- Descendant-combinator selector chain scoped to one element, the
adapter's `$(el).find('a b c')`. -/
def findEl (chain : List Sel) (n : Node) : List Node :=
  chain.foldl (fun ns s => findIn (matchesSel s) ns) [n]

/-- Document-level selector query `$('a b c')`: the chain is run from a
virtual root whose children are the document's top-level nodes. -/
def queryDoc (chain : List Sel) (doc : NodeList) : List Node :=
  findEl chain (Node.elem "root" [] doc)

/-- Concatenated text of a whole selection, the adapter's `$(sel).text()`. -/
def textOfSel (sel : List Node) : String :=
  joinSep "" (sel.map nodeText)

/-- Does the document have a match for the selector chain
(`$(sel).length > 0`)? -/
def hasSel (chain : List Sel) (doc : NodeList) : Bool :=
  !(queryDoc chain doc).isEmpty


mutual

/-- Apply `f` to every outermost strict-descendant match of `p` inside a
node, leaving the node itself untested (the adapter's
`$(el).find(sel).replaceWith(...)` pattern). -/
def mapMatchedNode (p : Node → Bool) (f : Node → Node) : Node → Node
  | .text s => .text s
  | .elem t a cs => .elem t a (mapMatchedNL p f cs)

/-- Apply `f` to every outermost match of `p` in a node sequence. -/
def mapMatchedNL (p : Node → Bool) (f : Node → Node) : NodeList → NodeList
  | .nil => .nil
  | .cons n ns =>
    .cons (if p n then f n else mapMatchedNode p f n) (mapMatchedNL p f ns)

end

/-- Replace every matched descendant with a text node derived from it, the
`replaceWith((i, el) => ...)` idiom. -/
def replaceMatched (p : Node → Bool) (f : Node → String) (n : Node) : Node :=
  mapMatchedNode p (fun m => Node.text (f m)) n

/-- Entity-encode the characters the serializer escapes in text content. -/
def escapeChars : List Char → List Char
  | [] => []
  | c :: cs =>
    (if c = '&' then "&amp;".data
     else if c = '<' then "&lt;".data
     else if c = '>' then "&gt;".data
     else [c]) ++ escapeChars cs

/-- Entity-encode a text fragment. -/
def escapeHtml (s : String) : String :=
  String.mk (escapeChars s.data)

/-- Serialize an attribute list. -/
def attrsHtml : List (String × String) → String
  | [] => ""
  | (k, v) :: rest => " " ++ k ++ "=\"" ++ v ++ "\"" ++ attrsHtml rest

mutual

/-- Serialize one node back to markup. -/
def htmlNode : Node → String
  | .text s => escapeHtml s
  | .elem t a cs => "<" ++ t ++ attrsHtml a ++ ">" ++ htmlNL cs ++ "</" ++ t ++ ">"

/-- Serialize a node sequence back to markup. -/
def htmlNL : NodeList → String
  | .nil => ""
  | .cons n ns => htmlNode n ++ htmlNL ns

end

/-- Inner markup of a node, the adapter's `html()` on one element. -/
def innerHtml (n : Node) : String :=
  htmlNL (childrenNL n)

/-- The normalized output record of one lookup.  Every field of the JS
object is modelled as an `Option`, `none` meaning the property is absent
from the object (never assigned, or deleted). -/
structure DictRecord where
  title : Option String := none
  phsym : Option String := none
  prons : Option String := none
  rank : Option String := none
  stars : Option Nat := none
  infs : Option String := none
  pattern : Option String := none
  cdef : Option (List (String × String)) := none
  basic : Option (List String) := none
  sentences : Option (List (Option String × Option String × String)) := none
  sentence : Option (List String) := none
  discrimination : Option String := none
  translation : Option String := none
  defs : Option (List (String × List (String × String))) := none
  list : Option String := none
  mt : Option String := none
deriving DecidableEq

/-- One sentence item of the source-A full-definition page, with the tree
mutation made explicit: replace the inline word spans with their plain
text and the search-term spans with their colorized text, then read the
`en`/`chs` inner markup and the citation text.  Returns the extracted
triple together with the mutated subtree. -/
def senExtractSt (e : Node) : (Option String × Option String × String) × Node :=
  let e1 := replaceMatched
    (fun n => hasClass "client_sen_en_word" n || hasClass "client_sen_cn_word" n ||
      hasClass "client_sen_word" n)
    (fun n => nodeText n) e
  let e2 := replaceMatched (hasClass "client_sentence_search")
    (fun n => chalkCyan (nodeText n)) e1
  (((findEl [Sel.cls "client_sen_en"] e2).head?.map innerHtml,
    (findEl [Sel.cls "client_sen_cn"] e2).head?.map innerHtml,
    textOfSel (findEl [Sel.cls "client_sentence_list_link"] e2)), e2)

/-- The value read out of one sentence item. -/
def senExtract (e : Node) : Option String × Option String × String :=
  (senExtractSt e).1

/-- Extractor for the source-A full-definition shape (`client_def_hd_hd`
in the source).  Each field mirrors one block of the function; fields are
independent in the code, so the record is assembled field-wise. -/
def client_def_hd_hd (doc : NodeList) : DictRecord :=
  { title := some (textOfSel (queryDoc [Sel.cls "client_def_hd_hd"] doc)),
    phsym :=
      let prons := queryDoc [Sel.cls "client_def_hd_pn_list"] doc
      if prons.isEmpty then none else
        let s := joinSep ""
          ((prons.map (fun e => textOfSel (findEl [Sel.cls "client_def_hd_pn"] e))).filter
            (fun t => t != ""))
        if s == "" then none else some s,
    cdef :=
      let bars := queryDoc [Sel.cls "client_def_container", Sel.cls "client_def_bar"] doc
      if bars.isEmpty then none else
        let l := ((bars.filter
            (fun e => (findEl [Sel.cls "client_def_list_word_Tag"] e).isEmpty)).map
          (fun e => (textOfSel (findEl [Sel.cls "client_def_title_bar"] e),
                     textOfSel (findEl [Sel.cls "client_def_list"] e)))).filter
          (fun pr => pr.1 != "" && pr.2 != "")
        if l.isEmpty then none else some l,
    infs :=
      let infs := queryDoc [Sel.cls "client_word_change_word"] doc
      if infs.isEmpty then none else
        let s := joinSep ", "
          ((infs.map (fun e => trimStr (nodeText e))).filter (fun t => t != ""))
        if s == "" then none else some s,
    sentences :=
      let sens := queryDoc [Sel.cls "client_sentence_list"] doc
      if sens.isEmpty then none else some ((sens.map senExtract).take 4) }

/-- Extractor for the source-A machine-translation shape
(`client_trans_head` in the source): only the `mt` field is set. -/
def client_trans_head (doc : NodeList) : DictRecord :=
  { mt := some (textOfSel (queryDoc [Sel.cls "client_sen_cn"] doc)) }

/-- Extractor for the source-A suggestion shape
(`client_do_you_mean_title_bar` in the source): `defs` is always
assigned (possibly the empty sequence); areas without a suggestion list
contribute nothing. -/
def client_do_you_mean_title_bar (doc : NodeList) : DictRecord :=
  { title := some (textOfSel (queryDoc [Sel.cls "client_do_you_mean_title_bar"] doc)),
    defs := some ((queryDoc [Sel.cls "client_do_you_mean_area"] doc).filterMap
      (fun area =>
        let ds := findEl [Sel.cls "client_do_you_mean_list"] area
        if ds.isEmpty then none else
          some (textOfSel (findEl [Sel.cls "client_do_you_mean_title"] area),
            ds.map (fun e =>
              (textOfSel (findEl [Sel.cls "client_do_you_mean_list_word"] e),
               textOfSel (findEl [Sel.cls "client_do_you_mean_list_def"] e)))))) }

/-- One sentence item of the source-B page, with the tree mutation made
explicit: colorize `b` elements in place, read the `example-via` citation,
remove it, then read the remaining paragraph text.  Returns the combined
line together with the mutated subtree. -/
def ydSentenceSt (e : Node) : String × Node :=
  let e1 := replaceMatched (fun n => tagOf n == some "b")
    (fun n => chalkCyan (nodeText n)) e
  let viaText := textOfSel (findEl [Sel.cls "example-via"] e1)
  let pos := chalkDim ("(" ++ viaText ++ ")")
  let e2 := replaceMatched (hasClass "example-via") (fun _ => "") e1
  (trimStr (textOfSel (findEl [Sel.tag "p"] e2)) ++ "   " ++ pos, e2)

/-- The combined line of one source-B sentence item. -/
def ydSentence (e : Node) : String :=
  (ydSentenceSt e).1

/-- Extractor for the source-B full-definition shape (`handle_youdao` in
the source).  Every field is assigned unconditionally, so every option is
`some`, possibly of an empty string or empty sequence. -/
def handle_youdao (doc : NodeList) : DictRecord :=
  { title := some (textOfSel (queryDoc [Sel.cls "keyword"] doc)),
    stars := some (starsOfAttr
      ((queryDoc [Sel.cls "star"] doc).head?.bind (getAttr "class"))),
    rank := some (textOfSel (queryDoc [Sel.cls "rank"] doc)),
    pattern := some (normalizeStr (textOfSel (queryDoc [Sel.cls "pattern"] doc))),
    prons := some (joinSep " "
      (((queryDoc [Sel.cls "baav", Sel.cls "pronounce"] doc).map
        (fun e => normalizeStr (nodeText e))).filter (fun t => t != ""))),
    basic := some
      (((queryDoc [Sel.id "phrsListTab", Sel.cls "trans-container", Sel.tag "li"] doc).map
        (fun e => normalizeStr (nodeText e))).filter (fun t => t != "")),
    discrimination := some (normalizeStr (textOfSel (queryDoc [Sel.id "discriminate"] doc))),
    sentence := some
      ((queryDoc [Sel.id "authority", Sel.cls "ol", Sel.tag "li"] doc).map ydSentence),
    translation := some (normalizeStr
      (textOfSel (queryDoc [Sel.id "fanyiToggle", Sel.cls "trans-container"] doc))) }

/-- The source-A classify-and-dispatch step of `searchWord`: the three
shape markers are tested in fixed order and the first present one's
extractor runs on a fresh record. -/
def bingExtract (doc : NodeList) : DictRecord :=
  if hasSel [Sel.cls "client_def_hd_hd"] doc then client_def_hd_hd doc
  else if hasSel [Sel.cls "client_trans_head"] doc then client_trans_head doc
  else if hasSel [Sel.cls "client_do_you_mean_title_bar"] doc then
    client_do_you_mean_title_bar doc
  else {}

/-- The source-B classify-and-dispatch step of `searchWord`: a typo page
yields only the `list` field, otherwise `handle_youdao` runs. -/
def youdaoExtract (doc : NodeList) : DictRecord :=
  let typo := queryDoc [Sel.cls "error-typo"] doc
  if typo.isEmpty then handle_youdao doc
  else { list := some (textOfSel typo) }

/-- The error branch of the `text` response helper: on a non-success
response, the message is the body, refined to the `.sc_error` text when
the body opens with a markup declaration and that text is non-empty, and
replaced by the status description when it ends up empty.  `tree` stands
for the parse of `body`.  The function is total: it never fails. -/
def describeError (body : String) (tree : NodeList) (statusText : String) : String :=
  let message :=
    if strStartsWith body "<!" then
      let e := textOfSel (queryDoc [Sel.cls "sc_error"] tree)
      if e != "" then e else body
    else body
  if message != "" then message else statusText

/-- The two upstream sources. -/
inductive Source where
  | bing
  | youdao

/-- Classify-and-extract for a parsed document of either source. -/
def extractBySource : Source → NodeList → DictRecord
  | .bing, doc => bingExtract doc
  | .youdao, doc => youdaoExtract doc

/-- Invariant of collapsed text, parametrized by whether the (virtual)
preceding character was whitespace: every whitespace character is a plain
space and never follows another whitespace character. -/
def goodFrom : Bool → List Char → Prop
  | _, [] => True
  | prev, c :: cs => (isWs c = true → c = ' ' ∧ prev = false) ∧ goodFrom (isWs c) cs

/-- The list does not start with a whitespace character. -/
def headWsFree : List Char → Prop
  | [] => True
  | c :: _ => isWs c = false

/-- The class attribute of the first star-rating marker,
`$('.star').attr('class')`. -/
def starClassAttr (doc : NodeList) : Option String :=
  (queryDoc [Sel.cls "star"] doc).head?.bind (getAttr "class")

/-- Spec-shaped description of the source-A concise-definition pipeline:
the definition bars without a word-tag marker, in page order, each mapped
to its (partOfSpeech, definition) pair, keeping only pairs whose two
parts are both non-empty. -/
def cdefSpec (doc : NodeList) : List (String × String) :=
  (((queryDoc [Sel.cls "client_def_container", Sel.cls "client_def_bar"] doc).filter
      (fun e => (findEl [Sel.cls "client_def_list_word_Tag"] e).isEmpty)).map
    (fun e => (textOfSel (findEl [Sel.cls "client_def_title_bar"] e),
               textOfSel (findEl [Sel.cls "client_def_list"] e)))).filter
    (fun pr => pr.1 != "" && pr.2 != "")

/-- The parsed tree as it stands after one extraction run, with the
in-place `replaceWith` mutations of the sentence extractors applied to
their subtrees (outermost matches; a model of the mutated per-run tree). -/
def mutatedTree : Source → NodeList → NodeList
  | .bing, doc =>
    if hasSel [Sel.cls "client_def_hd_hd"] doc then
      mapMatchedNL (hasClass "client_sentence_list") (fun e => (senExtractSt e).2) doc
    else doc
  | .youdao, doc =>
    if (queryDoc [Sel.cls "error-typo"] doc).isEmpty then
      mapMatchedNL (fun n => getAttr "id" n == some "authority")
        (mapMatchedNode (hasClass "ol")
          (mapMatchedNode (fun n => tagOf n == some "li")
            (fun e => (ydSentenceSt e).2))) doc
    else doc

/-- One full lookup run: the document text is parsed afresh (as
`cheerio.load` does on every invocation) and classified and extracted.
`_prior` is the tree left behind by an earlier run — possibly mutated in
place by the sentence extractors — which a fresh run never consults.
Returns the record together with this run's (mutated) tree. -/
def pipelineRunFrom (parse : String → NodeList) (src : Source) (txt : String)
    (_prior : NodeList) : DictRecord × NodeList :=
  let t := parse txt
  (extractBySource src t, mutatedTree src t)

/-- Concrete source-A document carrying both the full-definition marker
and the suggestion-title marker. -/
def docBothMarkers : NodeList :=
  nl [el "div" [("class", "client_def_hd_hd")] [Node.text "hello"],
      el "div" [("class", "client_do_you_mean_title_bar")] [Node.text "did you mean"]]

/-- Concrete source-A document carrying only the translation-head marker. -/
def docTransOnly : NodeList :=
  nl [el "div" [("class", "client_trans_head")] [],
      el "div" [("class", "client_sen_cn")] [Node.text "你好"]]

/-- Concrete source-A document carrying only the suggestion-title marker. -/
def docSuggOnly : NodeList :=
  nl [el "div" [("class", "client_do_you_mean_title_bar")] [Node.text "did you mean"]]

/-- Concrete source-B typo document that also carries other markers. -/
def docTypo : NodeList :=
  nl [el "p" [("class", "error-typo")] [Node.text "未找到与该词相关的结果"],
      el "span" [("class", "keyword")] [Node.text "hello"],
      el "span" [("class", "rank")] [Node.text "CET4"]]

/-- Concrete source-B document with a star-rating marker of class
attribute "star star4". -/
def docStar4 : NodeList :=
  nl [el "span" [("class", "keyword")] [Node.text "hello"],
      el "span" [("class", "star star4")] []]

theorem goodFrom_collapseWs (l : List Char) : ∀ b : Bool, goodFrom b (collapseWs b l) := by
  induction l with
  | nil => intro b; simp [collapseWs, goodFrom]
  | cons c cs ih =>
    intro b
    by_cases h : isWs c = true
    · cases b with
      | true => simpa [collapseWs, h] using ih true
      | false =>
        have hcoll : collapseWs false (c :: cs) = ' ' :: collapseWs true cs := by
          simp [collapseWs, h]
        rw [hcoll]
        refine ⟨fun _ => ⟨rfl, rfl⟩, ?_⟩
        have hsp : isWs ' ' = true := by decide
        rw [hsp]
        exact ih true
    · have h' : isWs c = false := by
        cases hx : isWs c
        · rfl
        · exact absurd hx h
      have hcoll : collapseWs b (c :: cs) = c :: collapseWs false cs := by
        simp [collapseWs, h']
      rw [hcoll]
      refine ⟨fun hx => absurd hx h, ?_⟩
      rw [h']
      exact ih false

theorem collapseWs_eq_of_goodFrom (l : List Char) :
    ∀ b : Bool, goodFrom b l → collapseWs b l = l := by
  induction l with
  | nil => intro b _; rfl
  | cons c cs ih =>
    intro b hg
    simp only [goodFrom] at hg
    obtain ⟨h1, h2⟩ := hg
    by_cases h : isWs c = true
    · obtain ⟨hc, hb⟩ := h1 h
      subst hc; subst hb
      rw [h] at h2
      simp only [collapseWs, h, if_true, Bool.false_eq_true, if_false]
      rw [ih true h2]
    · have h' : isWs c = false := by
        cases hx : isWs c
        · rfl
        · exact absurd hx h
      rw [h'] at h2
      simp only [collapseWs, h', Bool.false_eq_true, if_false]
      rw [ih false h2]

theorem goodFrom_dropWhile (l : List Char) :
    ∀ b : Bool, goodFrom b l → goodFrom false (l.dropWhile isWs) := by
  induction l with
  | nil => intro b _; simp [List.dropWhile, goodFrom]
  | cons c cs ih =>
    intro b hg
    simp only [goodFrom] at hg
    obtain ⟨h1, h2⟩ := hg
    by_cases h : isWs c = true
    · rw [List.dropWhile_cons_of_pos h]
      exact ih (isWs c) h2
    · have h' : isWs c = false := by
        cases hx : isWs c
        · rfl
        · exact absurd hx h
      rw [List.dropWhile_cons_of_neg (by simp [h'])]
      simp only [goodFrom]
      exact ⟨fun hx => absurd hx h, h2⟩

theorem goodFrom_trimRight (l : List Char) :
    ∀ b : Bool, goodFrom b l → goodFrom b (trimRight l) := by
  induction l with
  | nil => intro b h; exact h
  | cons c cs ih =>
    intro b hg
    simp only [goodFrom] at hg
    obtain ⟨h1, h2⟩ := hg
    by_cases h : ((trimRight cs).isEmpty && isWs c) = true
    · simp only [trimRight, h, if_true]
      simp [goodFrom]
    · simp only [trimRight, h, Bool.false_eq_true, if_false]
      exact ⟨h1, ih (isWs c) h2⟩

theorem headWsFree_dropWhile (l : List Char) : headWsFree (l.dropWhile isWs) := by
  induction l with
  | nil => simp [List.dropWhile, headWsFree]
  | cons c cs ih =>
    by_cases h : isWs c = true
    · rw [List.dropWhile_cons_of_pos h]; exact ih
    · have h' : isWs c = false := by
        cases hx : isWs c
        · rfl
        · exact absurd hx h
      rw [List.dropWhile_cons_of_neg (by simp [h'])]
      exact h'

theorem dropWhile_eq_self_of_headWsFree (l : List Char) (h : headWsFree l) :
    l.dropWhile isWs = l := by
  cases l with
  | nil => rfl
  | cons c cs =>
    simp only [headWsFree] at h
    rw [List.dropWhile_cons_of_neg (by simp [h])]

theorem headWsFree_trimRight (l : List Char) (h : headWsFree l) :
    headWsFree (trimRight l) := by
  cases l with
  | nil => exact h
  | cons c cs =>
    simp only [headWsFree] at h
    by_cases hc : ((trimRight cs).isEmpty && isWs c) = true
    · simp only [trimRight, hc, if_true]; trivial
    · simp only [trimRight, hc, Bool.false_eq_true, if_false]
      exact h

theorem trimRight_idem (l : List Char) : trimRight (trimRight l) = trimRight l := by
  induction l with
  | nil => rfl
  | cons c cs ih =>
    by_cases h : ((trimRight cs).isEmpty && isWs c) = true
    · simp [trimRight, h]
    · simp only [trimRight, h, Bool.false_eq_true, if_false]
      simp only [trimRight, ih, h, Bool.false_eq_true, if_false]

theorem trimChars_idem (l : List Char) : trimChars (trimChars l) = trimChars l := by
  unfold trimChars
  rw [dropWhile_eq_self_of_headWsFree _ (headWsFree_trimRight _ (headWsFree_dropWhile l)),
    trimRight_idem]

theorem goodFrom_trimChars (l : List Char) (h : goodFrom false l) :
    goodFrom false (trimChars l) := by
  unfold trimChars
  exact goodFrom_trimRight _ false (goodFrom_dropWhile _ false h)

theorem normalizeStr_idem (s : String) : normalizeStr (normalizeStr s) = normalizeStr s := by
  show String.mk (trimChars (collapseWs false (trimChars (collapseWs false s.data)))) = _
  rw [collapseWs_eq_of_goodFrom _ false (goodFrom_trimChars _ (goodFrom_collapseWs _ false)),
    trimChars_idem]
  rfl

theorem not_isEmpty_ne_nil {α : Type} {l : List α} (h : ¬(l.isEmpty = true)) : l ≠ [] := by
  intro he
  subst he
  exact h rfl

/-- C1 (amended): the source-A full-definition extractor omits `phsym`,
`infs` and `cdef` rather than keeping them empty, and never stores an
empty `sentences` sequence; but the source-B full-definition extractor
assigns `rank`, `pattern`, `prons`, `basic`, `discrimination`,
`sentence`, `stars` and `translation` unconditionally (keeping empty
strings and empty sequences when the source subtree is absent), and the
source-A suggestion extractor always assigns `defs`, possibly as an empty
sequence. -/
theorem optional_fields_empty_policy (doc : NodeList) :
    (client_def_hd_hd doc).phsym.all (fun s => s != "") = true ∧
    (client_def_hd_hd doc).infs.all (fun s => s != "") = true ∧
    (client_def_hd_hd doc).cdef.all (fun l => !l.isEmpty) = true ∧
    (client_def_hd_hd doc).sentences.all (fun l => !l.isEmpty) = true ∧
    (handle_youdao doc).rank.isSome = true ∧
    (handle_youdao doc).pattern.isSome = true ∧
    (handle_youdao doc).prons.isSome = true ∧
    (handle_youdao doc).basic.isSome = true ∧
    (handle_youdao doc).discrimination.isSome = true ∧
    (handle_youdao doc).sentence.isSome = true ∧
    (handle_youdao doc).stars.isSome = true ∧
    (handle_youdao doc).translation.isSome = true ∧
    (client_do_you_mean_title_bar doc).defs.isSome = true := by
  refine ⟨?_, ?_, ?_, ?_, rfl, rfl, rfl, rfl, rfl, rfl, rfl, rfl, rfl⟩
  · simp only [client_def_hd_hd]
    split
    · rfl
    · split
      · rfl
      · rename_i hs
        simpa using hs
  · simp only [client_def_hd_hd]
    split
    · rfl
    · split
      · rfl
      · rename_i hs
        simpa using hs
  · simp only [client_def_hd_hd]
    split
    · rfl
    · split
      · rfl
      · rename_i hl
        simp only [Option.all]
        simp only [Bool.not_eq_true] at hl
        simp [hl]
  · simp only [client_def_hd_hd]
    split
    · rfl
    · rename_i hs
      have hne := not_isEmpty_ne_nil hs
      simp only [Option.all, Bool.not_eq_true']
      rw [List.isEmpty_eq_false_iff_exists_mem.mpr]
      obtain ⟨x, xs, hxx⟩ := List.exists_cons_of_ne_nil hne
      exact ⟨senExtract x, by rw [hxx]; simp [List.take_succ_cons]⟩

/-- C1 counterexample: on the empty source-B document the `rank` subtree
is absent, yet the returned record keeps `rank` as a present, empty
string instead of omitting the field. -/
theorem empty_field_kept_counterexample :
    hasSel [Sel.cls "rank"] emptyDoc = false ∧
    (youdaoExtract emptyDoc).rank = some "" := by decide

/-- C2: source-A classification tests the three shape markers in the
fixed order full-definition, translation-head, suggestion-title, and the
record is the one extractor's output for the first marker present (so a
document with both the full-definition and the suggestion-title markers
is handled by the full-definition extractor alone); nothing runs when no
marker is present. -/
theorem bing_priority_order (doc : NodeList) :
    (hasSel [Sel.cls "client_def_hd_hd"] doc = true →
      bingExtract doc = client_def_hd_hd doc) ∧
    (hasSel [Sel.cls "client_def_hd_hd"] doc = false →
      hasSel [Sel.cls "client_trans_head"] doc = true →
      bingExtract doc = client_trans_head doc) ∧
    (hasSel [Sel.cls "client_def_hd_hd"] doc = false →
      hasSel [Sel.cls "client_trans_head"] doc = false →
      hasSel [Sel.cls "client_do_you_mean_title_bar"] doc = true →
      bingExtract doc = client_do_you_mean_title_bar doc) ∧
    (hasSel [Sel.cls "client_def_hd_hd"] doc = false →
      hasSel [Sel.cls "client_trans_head"] doc = false →
      hasSel [Sel.cls "client_do_you_mean_title_bar"] doc = false →
      bingExtract doc = {}) := by
  refine ⟨fun h1 => ?_, fun h1 h2 => ?_, fun h1 h2 h3 => ?_, fun h1 h2 h3 => ?_⟩
  · simp [bingExtract, h1]
  · simp [bingExtract, h1, h2]
  · simp [bingExtract, h1, h2, h3]
  · simp [bingExtract, h1, h2, h3]

/-- C2 witness: with both the full-definition and the suggestion-title
markers present only the full-definition extractor runs; each later
branch runs exactly when the earlier markers are absent; with no marker
the record stays untouched. -/
theorem bing_priority_order_witness :
    bingExtract docBothMarkers = client_def_hd_hd docBothMarkers ∧
    bingExtract docTransOnly = client_trans_head docTransOnly ∧
    bingExtract docSuggOnly = client_do_you_mean_title_bar docSuggOnly ∧
    bingExtract emptyDoc = {} :=
  ⟨(bing_priority_order docBothMarkers).1 (by decide),
   (bing_priority_order docTransOnly).2.1 (by decide) (by decide),
   (bing_priority_order docSuggOnly).2.2.1 (by decide) (by decide) (by decide),
   (bing_priority_order emptyDoc).2.2.2 (by decide) (by decide) (by decide)⟩

/-- C3: the source-A `sentences` field holds the first four sentence-list
items in page order; its entry count is the number of sentence-list items
capped at four (an absent field counts as zero entries, which happens
exactly when the page has no sentence-list item). -/
theorem bing_sentences_first_four (doc : NodeList) :
    (client_def_hd_hd doc).sentences.getD []
      = ((queryDoc [Sel.cls "client_sentence_list"] doc).map senExtract).take 4 ∧
    ((client_def_hd_hd doc).sentences.getD []).length
      = min ((queryDoc [Sel.cls "client_sentence_list"] doc).length) 4 ∧
    ((client_def_hd_hd doc).sentences.getD []).length ≤ 4 := by
  have hs : (client_def_hd_hd doc).sentences
      = (if (queryDoc [Sel.cls "client_sentence_list"] doc).isEmpty then none
         else some (((queryDoc [Sel.cls "client_sentence_list"] doc).map senExtract).take 4)) :=
    rfl
  by_cases h : (queryDoc [Sel.cls "client_sentence_list"] doc).isEmpty = true
  · have hnil : queryDoc [Sel.cls "client_sentence_list"] doc = [] := List.isEmpty_iff.mp h
    rw [hs]
    simp [hnil]
  · simp only [Bool.not_eq_true] at h
    rw [hs]
    simp only [h, Bool.false_eq_true, if_false]
    refine ⟨rfl, ?_, ?_⟩
    · rw [Option.getD_some, List.length_take, List.length_map, Nat.min_comm]
    · rw [Option.getD_some, List.length_take]
      exact Nat.min_le_left ..

/-- C4: the `stars` value of the source-B record is the decimal value of
the first digit run of the star-rating marker's class attribute, and 0
when the attribute is absent or has no digits. -/
theorem youdao_stars_from_class (doc : NodeList) :
    (starClassAttr doc = none → (handle_youdao doc).stars = some 0) ∧
    (∀ s : String, starClassAttr doc = some s → firstDigitRun s.data = none →
      (handle_youdao doc).stars = some 0) ∧
    (∀ s : String, ∀ ds : List Char, starClassAttr doc = some s →
      firstDigitRun s.data = some ds →
      (handle_youdao doc).stars = some (digitsVal ds)) := by
  have hs : (handle_youdao doc).stars = some (starsOfAttr (starClassAttr doc)) := rfl
  refine ⟨fun h => ?_, fun s h hd => ?_, fun s ds h hd => ?_⟩
  · rw [hs, h]
    rfl
  · rw [hs, h]
    simp only [starsOfAttr, hd]
  · rw [hs, h]
    simp only [starsOfAttr, hd]

/-- C4 witness: class attribute "star star4" yields 4; an absent marker
yields 0. -/
theorem youdao_stars_from_class_witness :
    (handle_youdao docStar4).stars = some 4 ∧
    (handle_youdao emptyDoc).stars = some 0 := by
  constructor
  · have h := (youdao_stars_from_class docStar4).2.2 "star star4" ['4']
      (by decide) (by decide)
    rw [h]
    decide
  · exact (youdao_stars_from_class emptyDoc).1 (by decide)

/-- C5: when the source-B typo marker is present the record consists of
exactly the `list` field, holding the typo-message text; every other
field is absent no matter what else the page contains, and the
full-definition extractor is not invoked. -/
theorem youdao_typo_list_only (doc : NodeList)
    (h : hasSel [Sel.cls "error-typo"] doc = true) :
    youdaoExtract doc
      = { list := some (textOfSel (queryDoc [Sel.cls "error-typo"] doc)) } := by
  have h' : (queryDoc [Sel.cls "error-typo"] doc).isEmpty = false := by
    simpa [hasSel] using h
  simp [youdaoExtract, h']

/-- C5 witness: a typo page that also carries keyword and rank markers
still produces the one-field record. -/
theorem youdao_typo_list_only_witness :
    youdaoExtract docTypo = { list := some "未找到与该词相关的结果" } := by
  have h := youdao_typo_list_only docTypo (by decide)
  rw [h]
  decide

/-- C6: source-A concise definitions exclude every definition bar that
contains a word-tag marker, wherever it sits; the remaining bars give
(partOfSpeech, definition) pairs of which only those with both parts
non-empty are kept, and the field is omitted exactly when nothing
remains. -/
theorem bing_cdef_excludes_word_tag (doc : NodeList) :
    (client_def_hd_hd doc).cdef.getD [] = cdefSpec doc ∧
    ((client_def_hd_hd doc).cdef = none ↔ cdefSpec doc = []) := by
  have hc : (client_def_hd_hd doc).cdef
      = (if (queryDoc [Sel.cls "client_def_container", Sel.cls "client_def_bar"] doc).isEmpty
         then none
         else if (cdefSpec doc).isEmpty then none else some (cdefSpec doc)) := rfl
  by_cases hb :
      (queryDoc [Sel.cls "client_def_container", Sel.cls "client_def_bar"] doc).isEmpty = true
  · have hnil := List.isEmpty_iff.mp hb
    have hspec : cdefSpec doc = [] := by
      unfold cdefSpec
      rw [hnil]
      rfl
    rw [hc]
    simp [hb, hspec]
  · simp only [Bool.not_eq_true] at hb
    by_cases hl : (cdefSpec doc).isEmpty = true
    · have hspec := List.isEmpty_iff.mp hl
      rw [hc]
      simp [hb, hl, hspec]
    · have hne : cdefSpec doc ≠ [] := not_isEmpty_ne_nil hl
      simp only [Bool.not_eq_true] at hl
      rw [hc]
      simp [hb, hl, hne]

/-- C7: the described transport-failure message is the service
error-marker text when the body opens with a markup declaration and that
text is non-empty, otherwise the raw body when non-empty, otherwise the
status description; `describeError` is a total function. -/
theorem describe_error_message (body : String) (tree : NodeList) (statusText : String) :
    describeError body tree statusText
      = if strStartsWith body "<!" = true
            ∧ textOfSel (queryDoc [Sel.cls "sc_error"] tree) ≠ "" then
          textOfSel (queryDoc [Sel.cls "sc_error"] tree)
        else if body ≠ "" then body
        else statusText := by
  unfold describeError
  by_cases h1 : strStartsWith body "<!" = true
  · by_cases h2 : textOfSel (queryDoc [Sel.cls "sc_error"] tree) = ""
    · have hb : body ≠ "" := by
        intro he
        rw [he] at h1
        exact absurd h1 (by decide)
      simp [h1, h2, hb]
    · simp [h1, h2]
  · by_cases h3 : body = ""
    · subst h3
      have h0 : strStartsWith "" "<!" = false := by decide
      simp [h0]
    · simp [h1, h3]

/-- C8 (amended): with no known shape marker present, source A leaves the
record untouched (so no `title` field), while the source-B
full-definition extractor still assigns `title`, as the empty string —
present but falsy, rendered as a non-hit downstream. -/
theorem no_marker_yields_non_hit (doc : NodeList) :
    (hasSel [Sel.cls "client_def_hd_hd"] doc = false →
      hasSel [Sel.cls "client_trans_head"] doc = false →
      hasSel [Sel.cls "client_do_you_mean_title_bar"] doc = false →
      bingExtract doc = {}) ∧
    (hasSel [Sel.cls "error-typo"] doc = false →
      hasSel [Sel.cls "keyword"] doc = false →
      (youdaoExtract doc).title = some "") := by
  constructor
  · intro h1 h2 h3
    simp [bingExtract, h1, h2, h3]
  · intro ht hk
    have h1 : (queryDoc [Sel.cls "error-typo"] doc).isEmpty = true := by
      simpa [hasSel] using ht
    have h2 : queryDoc [Sel.cls "keyword"] doc = [] := by
      simpa [hasSel] using hk
    simp [youdaoExtract, h1, handle_youdao, h2, textOfSel, joinSep]

/-- C8 witness: on the empty document both pipelines yield a non-hit —
source A an untouched record, source B a record whose `title` is the
empty string. -/
theorem no_marker_yields_non_hit_witness :
    bingExtract emptyDoc = {} ∧ (youdaoExtract emptyDoc).title = some "" :=
  ⟨(no_marker_yields_non_hit emptyDoc).1 (by decide) (by decide) (by decide),
   (no_marker_yields_non_hit emptyDoc).2 (by decide) (by decide)⟩

/-- C8 counterexample: on the empty source-B document no marker is
present, yet the returned record does carry a `title` field (the empty
string), so the pipeline does not yield a record with no `title` field. -/
theorem no_marker_title_present_counterexample :
    hasSel [Sel.cls "keyword"] emptyDoc = false ∧
    (youdaoExtract emptyDoc).title ≠ none := by decide

/-- C9: the text normalizer (collapse every whitespace run to one space,
then trim) is idempotent, and normalizes "  a   b\n c " to "a b c". -/
theorem normalize_idempotent :
    (∀ s : String, normalizeStr (normalizeStr s) = normalizeStr s) ∧
    normalizeStr "  a   b\n c " = "a b c" :=
  ⟨normalizeStr_idem, by decide⟩

/-- C10: classification and extraction are deterministic — a run parses
the document text afresh, so the record it returns does not depend on the
tree left behind (and mutated in place by the sentence extractors) by any
earlier run: two runs on the same text and source return identical
records. -/
theorem pipeline_two_runs_equal (parse : String → NodeList) (src : Source) (txt : String)
    (prior1 prior2 : NodeList) :
    (pipelineRunFrom parse src txt prior1).1 = (pipelineRunFrom parse src txt prior2).1 := rfl
